import Mathlib

/-!
# Verification of the rippr audio-analysis core

Shallow embedding of the signal-processing core of the `rippr` repository
(`src/src-tauri/src/waveform.rs`, `src/src-tauri/src/audio_analysis.rs`,
`src/src-tauri/src/lib.rs`) and proofs about the properties its
specification asserts.

Modelling conventions:
* Rust `f32`/`f64` sample arithmetic is modelled exactly over `ℚ` where the
  code only adds, multiplies, divides and compares (waveform, energy/BPM
  pipeline, trimming), and over `ℝ` where the code takes square roots,
  cosines and non-integer powers (the chromagram / key pipeline).
* machine-integer arithmetic (`usize`, `u64`) is `Nat`; a Rust cast
  `as usize` of a nonnegative float is `Int.floor`/`toNat`.
* loops are either structural recursion over lists or fuel-indexed
  recursion where the Rust loop advances an index (the fuel is always shown
  sufficient under the hypotheses of the theorems).
* a Rust panic (division by zero on `usize`) is an explicit error value.
* Rust `let` bindings of pure expressions are inlined where that eases
  rewriting; this does not change any value.
-/

namespace Rippr

/-- Decidable equality for `Except`, used to evaluate the embedded functions
on concrete inputs. -/
instance exceptDecEq {ε α : Type} [DecidableEq ε] [DecidableEq α] :
    DecidableEq (Except ε α) := fun x y =>
  match x, y with
  | .ok a, .ok b =>
      if h : a = b then isTrue (by rw [h])
      else isFalse (fun c => by cases c; exact h rfl)
  | .ok _, .error _ => isFalse (fun c => by cases c)
  | .error _, .ok _ => isFalse (fun c => by cases c)
  | .error a, .error b =>
      if h : a = b then isTrue (by rw [h])
      else isFalse (fun c => by cases c; exact h rfl)

/-! ## Waveform summarizer (`src/src-tauri/src/waveform.rs`) -/

/-- `WaveformPoint` (waveform.rs lines 12-16): min/max amplitude of a segment. -/
structure WaveformPoint where
  min : ℚ
  max : ℚ
deriving DecidableEq, Repr

/-- The value of Rust `f32::MAX = (2^24 - 1) * 2^104`, used as the initial
running minimum in `generate_waveform` (waveform.rs line 45). -/
def f32Max : ℚ := 340282346638528859811704183484516925440

/-- The value of Rust `f32::MIN = -f32::MAX`, the initial running maximum
(waveform.rs line 46). -/
def f32Min : ℚ := -f32Max

/-- The `for &sample in segment` loop of `generate_waveform`
(waveform.rs lines 48-55): one pass updating the running min and max. -/
def minMaxFold : List ℚ → ℚ → ℚ → ℚ × ℚ
  | [], mv, Mv => (mv, Mv)
  | s :: rest, mv, Mv =>
      minMaxFold rest (if s < mv then s else mv) (if Mv < s then s else Mv)

/-- The waveform point emitted for one segment (waveform.rs lines 40-60):
an empty segment yields `{0, 0}`, otherwise the min/max accumulated from
the `f32::MAX` / `f32::MIN` sentinels. -/
def segPoint (seg : List ℚ) : WaveformPoint :=
  if seg.isEmpty then ⟨0, 0⟩
  else
    let mm := minMaxFold seg f32Max f32Min
    ⟨mm.1, mm.2⟩

/-- Outcome of `generate_waveform`: a Rust `Err(String)`, or the panic that
the expression `samples.len() / num_points` raises when `num_points = 0`. -/
inductive WfError where
  | panic : WfError
  | msg : String → WfError
deriving DecidableEq

/-- `generate_waveform` (waveform.rs lines 19-64), expressed on the decoded
mono sample list.  The Rust `usize` division `samples.len() / num_points`
panics when `num_points = 0`; that panic is modelled as `WfError.panic`,
raised exactly where the Rust division sits (after the emptiness check,
before the `samples_per_point == 0` check).  `samples_per_point`, `start`
and `end` are inlined: `start = i * samples_per_point`,
`end = min ((i+1) * samples_per_point) samples.len()`. -/
def generate_waveform (samples : List ℚ) (num_points : Nat) :
    Except WfError (List WaveformPoint) :=
  if samples.isEmpty then .error (.msg "No audio samples loaded")
  else if num_points = 0 then .error .panic
  else if samples.length / num_points = 0 then
    .error (.msg "Audio too short for requested resolution")
  else .ok ((List.range num_points).map (fun i =>
    segPoint ((samples.drop (i * (samples.length / num_points))).take
      (min ((i + 1) * (samples.length / num_points)) samples.length
        - i * (samples.length / num_points)))))

/-! ### Helper lemmas for the waveform claims -/

theorem minMaxFold_fst_le_init (seg : List ℚ) (mv Mv : ℚ) :
    (minMaxFold seg mv Mv).1 ≤ mv := by
  induction seg generalizing mv Mv with
  | nil => simp [minMaxFold]
  | cons s rest ih =>
      refine le_trans (ih _ _) ?_
      by_cases h : s < mv
      · rw [if_pos h]; exact le_of_lt h
      · rw [if_neg h]

theorem init_le_minMaxFold_snd (seg : List ℚ) (mv Mv : ℚ) :
    Mv ≤ (minMaxFold seg mv Mv).2 := by
  induction seg generalizing mv Mv with
  | nil => simp [minMaxFold]
  | cons s rest ih =>
      refine le_trans ?_ (ih _ _)
      by_cases h : Mv < s
      · rw [if_pos h]; exact le_of_lt h
      · rw [if_neg h]

theorem minMaxFold_fst_le (seg : List ℚ) (mv Mv : ℚ) (x : ℚ) (hx : x ∈ seg) :
    (minMaxFold seg mv Mv).1 ≤ x := by
  induction seg generalizing mv Mv with
  | nil => cases hx
  | cons s rest ih =>
      rcases List.mem_cons.1 hx with rfl | hx'
      · show (minMaxFold rest (if x < mv then x else mv) (if Mv < x then x else Mv)).1 ≤ x
        refine le_trans (minMaxFold_fst_le_init _ _ _) ?_
        by_cases h : x < mv
        · rw [if_pos h]
        · rw [if_neg h]; exact not_lt.1 h
      · exact ih _ _ hx'

theorem le_minMaxFold_snd (seg : List ℚ) (mv Mv : ℚ) (x : ℚ) (hx : x ∈ seg) :
    x ≤ (minMaxFold seg mv Mv).2 := by
  induction seg generalizing mv Mv with
  | nil => cases hx
  | cons s rest ih =>
      rcases List.mem_cons.1 hx with rfl | hx'
      · show x ≤ (minMaxFold rest (if x < mv then x else mv) (if Mv < x then x else Mv)).2
        refine le_trans ?_ (init_le_minMaxFold_snd _ _ _)
        by_cases h : Mv < x
        · rw [if_pos h]
        · rw [if_neg h]; exact not_lt.1 h
      · exact ih _ _ hx'

theorem segPoint_min_le_max (seg : List ℚ) : (segPoint seg).min ≤ (segPoint seg).max := by
  unfold segPoint
  split
  · simp
  · rename_i h
    have h' : seg ≠ [] := fun hnil => by simp [hnil] at h
    obtain ⟨x, hx⟩ := List.exists_mem_of_ne_nil _ h'
    exact le_trans (minMaxFold_fst_le _ _ _ _ hx) (le_minMaxFold_snd _ _ _ _ hx)

/-! ### Claims C2, C8, C10 -/

/-- **C2**: for every `num_points = P ≥ 1` and every decoded sample sequence
with at least `P` samples, `generate_waveform` returns `Ok` with exactly `P`
waveform points, and every returned point satisfies `min ≤ max`. -/
theorem generate_waveform_ok_length_minmax (samples : List ℚ) (P : Nat)
    (hP : 1 ≤ P) (hlen : P ≤ samples.length) :
    ∃ pts, generate_waveform samples P = .ok pts ∧ pts.length = P ∧
      ∀ pt ∈ pts, pt.min ≤ pt.max := by
  have hP0 : P ≠ 0 := by omega
  have hne : ¬ samples.isEmpty = true := by
    intro h
    rw [List.isEmpty_iff] at h
    subst h
    simp at hlen
    omega
  have hspp : ¬ samples.length / P = 0 := by
    have := (Nat.one_le_div_iff (show 0 < P by omega)).2 hlen
    omega
  refine ⟨(List.range P).map (fun i =>
    segPoint ((samples.drop (i * (samples.length / P))).take
      (min ((i + 1) * (samples.length / P)) samples.length
        - i * (samples.length / P)))), ?_, ?_, ?_⟩
  · rw [generate_waveform, if_neg hne, if_neg hP0, if_neg hspp]
  · simp
  · intro pt hpt
    simp only [List.mem_map] at hpt
    obtain ⟨i, _, rfl⟩ := hpt
    exact segPoint_min_le_max _

/-- Witness for C2 at a concrete input. -/
theorem generate_waveform_ok_length_minmax_witness :
    ∃ pts, generate_waveform [(1 : ℚ), 2, 3] 2 = .ok pts ∧ pts.length = 2 ∧
      ∀ pt ∈ pts, pt.min ≤ pt.max :=
  generate_waveform_ok_length_minmax [1, 2, 3] 2 (by decide) (by decide)

/-- **C10**: calling `generate_waveform` with `num_points = 0` on a file that
decodes to a non-empty sample sequence hits the division by zero in
`samples.len() / num_points` and panics instead of returning a descriptive
error; returning normally carries the implicit precondition `num_points ≥ 1`. -/
theorem generate_waveform_zero_points_panics (samples : List ℚ) :
    (samples ≠ [] → generate_waveform samples 0 = .error .panic) ∧
    (∀ P r, generate_waveform samples P = .ok r → 1 ≤ P) := by
  constructor
  · intro h
    rw [generate_waveform, if_neg (by simpa [List.isEmpty_iff] using h), if_pos rfl]
  · intro P r h
    by_contra hP
    have hP0 : P = 0 := by omega
    subst hP0
    rw [generate_waveform] at h
    by_cases he : samples.isEmpty = true
    · rw [if_pos he] at h; simp at h
    · rw [if_neg he, if_pos rfl] at h; simp at h

/-- Witness for C10 at a concrete input. -/
theorem generate_waveform_zero_points_panics_witness :
    generate_waveform [(1 : ℚ)] 0 = .error .panic :=
  (generate_waveform_zero_points_panics [1]).1 (by decide)

/-- **C8 counterexample**: with 5 samples and `P = 2`, segment size is 2, the
two emitted segments cover only samples 0-3, and the final sample (value 99,
index 4, part of the `N mod P` tail) contributes to no emitted point —
refuting the claim that every sample reaches the min/max of some point. -/
theorem generate_waveform_tail_dropped_cex :
    generate_waveform [(1 : ℚ), 1, 1, 1, 99] 2 = .ok [⟨1, 1⟩, ⟨1, 1⟩] ∧
      ∀ pt ∈ [(⟨1, 1⟩ : WaveformPoint), ⟨1, 1⟩], pt.min ≠ 99 ∧ pt.max ≠ 99 := by
  refine ⟨by decide, by decide⟩

/-- **C8 amended**: `generate_waveform` partitions only the first
`P * ⌊N/P⌋` samples into `P` contiguous segments of exactly `⌊N/P⌋` samples
each; the final `N mod P` samples are ignored — the output depends only on
the prefix of length `P * ⌊N/P⌋` (for inputs of equal length). -/
theorem generate_waveform_ignores_tail (s1 s2 : List ℚ) (P : Nat) (hP : 1 ≤ P)
    (hlen : s1.length = s2.length)
    (hpre : s1.take (P * (s1.length / P)) = s2.take (P * (s2.length / P))) :
    generate_waveform s1 P = generate_waveform s2 P := by
  have hP0 : P ≠ 0 := by omega
  have hemp : s1.isEmpty = s2.isEmpty := by
    cases s1 <;> cases s2 <;> simp_all
  rw [generate_waveform, generate_waveform, hemp, ← hlen]
  by_cases he : s2.isEmpty = true
  · rw [if_pos he, if_pos he]
  · rw [if_neg he, if_neg he, if_neg hP0, if_neg hP0]
    have hpre' : s2.take (P * (s1.length / P)) = s1.take (P * (s1.length / P)) := by
      rw [← hlen] at hpre
      exact hpre.symm
    by_cases hz : s1.length / P = 0
    · rw [if_pos hz, if_pos hz]
    · rw [if_neg hz, if_neg hz]
      congr 1
      apply List.map_congr_left
      intro i hi
      rw [List.mem_range] at hi
      have hmono : i * (s1.length / P) ≤ (i + 1) * (s1.length / P) :=
        Nat.mul_le_mul_right _ (by omega)
      have hPs : (i + 1) * (s1.length / P) ≤ P * (s1.length / P) :=
        Nat.mul_le_mul_right _ (by omega)
      have hle : i * (s1.length / P) +
          (min ((i + 1) * (s1.length / P)) s1.length - i * (s1.length / P))
          ≤ P * (s1.length / P) := by
        rcases le_total ((i + 1) * (s1.length / P)) s1.length with h | h
        · rw [min_eq_left h]; omega
        · rw [min_eq_right h]; omega
      have key : ∀ (s : List ℚ),
          s.take (P * (s1.length / P)) = s1.take (P * (s1.length / P)) →
          (s.drop (i * (s1.length / P))).take
            (min ((i + 1) * (s1.length / P)) s1.length - i * (s1.length / P)) =
          (s1.drop (i * (s1.length / P))).take
            (min ((i + 1) * (s1.length / P)) s1.length - i * (s1.length / P)) := by
        intro s hst
        rw [List.take_drop, List.take_drop]
        congr 1
        calc s.take (i * (s1.length / P) +
                (min ((i + 1) * (s1.length / P)) s1.length - i * (s1.length / P)))
            = (s.take (P * (s1.length / P))).take (i * (s1.length / P) +
                (min ((i + 1) * (s1.length / P)) s1.length - i * (s1.length / P))) := by
              rw [List.take_take, inf_eq_left.2 hle]
          _ = (s1.take (P * (s1.length / P))).take (i * (s1.length / P) +
                (min ((i + 1) * (s1.length / P)) s1.length - i * (s1.length / P))) := by
              rw [hst]
          _ = s1.take (i * (s1.length / P) +
                (min ((i + 1) * (s1.length / P)) s1.length - i * (s1.length / P))) := by
              rw [List.take_take, inf_eq_left.2 hle]
      exact congrArg segPoint (key s2 hpre').symm

/-- Witness for C8's amended theorem at a concrete input. -/
theorem generate_waveform_ignores_tail_witness :
    generate_waveform [(1 : ℚ), 1, 1, 1, 99] 2 = generate_waveform [(1 : ℚ), 1, 1, 1, 0] 2 :=
  generate_waveform_ignores_tail _ _ 2 (by decide) (by decide) (by decide)

/-! ## Trimming transcoder (`src/src-tauri/src/lib.rs`, `convert_to_mp3_trimmed`) -/

/-- The decode/trim/encode loop of `convert_to_mp3_trimmed`
(lib.rs lines 1489-1557), modelled on the successfully decoded interleaved
packets of the selected track.  `ch` is the channel count, `s` and `e` are
`start_sample` and `end_sample` (the `u64` values
`(start_time * sample_rate) as u64` and `(end_time * sample_rate) as u64`),
and the `Nat` argument is the running frame counter `current_sample`.  Each
packet is its interleaved sample slice; `num_frames = samples.len() /
channels`.  The result is the concatenation of the interleaved sub-ranges
handed to the MP3 encoder; the loop breaks once
`current_sample >= end_sample`. -/
def trimEncoded {α : Type*} (ch s e : Nat) : Nat → List (List α) → List α
  | _, [] => []
  | c, p :: ps =>
      let num_frames := p.length / ch
      let packet_end := c + num_frames
      let out :=
        if s < packet_end ∧ c < e then
          let trim_start := if c < s then (s - c) * ch else 0
          let trim_end :=
            if e < packet_end then p.length - (packet_end - e) * ch else p.length
          if trim_start < trim_end then
            (p.drop trim_start).take (trim_end - trim_start)
          else []
        else []
      if e ≤ packet_end then out else out ++ trimEncoded ch s e packet_end ps

/-- Core invariant of the trim loop: starting from frame counter `c`, the
emitted samples are exactly the slice of the remaining stream between frame
`s - c` and frame `e - c`. -/
theorem trimEncoded_eq_slice {α : Type*} (ch s e : Nat) (hch : 0 < ch)
    (ps : List (List α)) :
    ∀ (c : Nat), (∀ p ∈ ps, ch ∣ p.length) →
      trimEncoded ch s e c ps =
        (ps.flatten.drop (ch * (s - c))).take (ch * ((e - c) - (s - c))) := by
  induction ps with
  | nil => intro c _; simp [trimEncoded]
  | cons p ps ih =>
      intro c hdiv
      obtain ⟨nf, hplen⟩ := hdiv p (List.mem_cons_self _ _)
      have hrest : ∀ q ∈ ps, ch ∣ q.length := fun q hq => hdiv q (List.mem_cons_of_mem _ hq)
      have hnfval : p.length / ch = nf := by rw [hplen, Nat.mul_div_cancel_left _ hch]
      rw [List.flatten_cons]
      simp only [trimEncoded, hnfval]
      by_cases hbrk : e ≤ c + nf
      · -- the loop breaks after this packet
        rw [if_pos hbrk]
        by_cases hcond : s < c + nf ∧ c < e
        · obtain ⟨hps, hce⟩ := hcond
          rw [if_pos ⟨hps, hce⟩]
          have hts : (if c < s then (s - c) * ch else 0) = (s - c) * ch := by
            by_cases h : c < s
            · rw [if_pos h]
            · rw [if_neg h, Nat.sub_eq_zero_of_le (by omega), Nat.zero_mul]
          have hte : (if e < c + nf then p.length - (c + nf - e) * ch else p.length)
              = (e - c) * ch := by
            by_cases h : e < c + nf
            · rw [if_pos h, hplen]
              have e1 : c + nf - e = nf - (e - c) := by omega
              rw [e1, Nat.sub_mul, Nat.mul_comm ch nf]
              have h2 : (e - c) * ch ≤ nf * ch :=
                Nat.mul_le_mul_right _ (by omega)
              omega
            · rw [if_neg h, hplen, Nat.mul_comm]
              congr 1
              omega
          rw [hts, hte]
          by_cases hab : s - c < e - c
          · rw [if_pos ((Nat.mul_lt_mul_right hch).2 hab)]
            rw [List.drop_append_eq_append_drop]
            have hd : ch * (s - c) ≤ p.length := by
              rw [hplen]; exact Nat.mul_le_mul_left _ (by omega)
            rw [Nat.sub_eq_zero_of_le hd, List.drop_zero]
            rw [List.take_append_eq_append_take]
            have htk : ch * ((e - c) - (s - c)) ≤ (p.drop (ch * (s - c))).length := by
              rw [List.length_drop, hplen, Nat.mul_sub ch (e - c) (s - c)]
              have h1 : ch * (e - c) ≤ ch * nf := Nat.mul_le_mul_left _ (by omega)
              omega
            rw [Nat.sub_eq_zero_of_le htk, List.take_zero, List.append_nil]
            rw [Nat.mul_comm (s - c) ch, Nat.mul_comm (e - c) ch]
            congr 1
            rw [Nat.mul_sub ch (e - c) (s - c)]
          · rw [if_neg (fun hcon => hab ((Nat.mul_lt_mul_right hch).1 hcon))]
            have h0 : (e - c) - (s - c) = 0 := by omega
            rw [h0, Nat.mul_zero, List.take_zero]
        · rw [if_neg hcond]
          have h0 : (e - c) - (s - c) = 0 := by omega
          rw [h0, Nat.mul_zero, List.take_zero]
      · -- the loop keeps going after this packet
        rw [if_neg hbrk]
        have hce : c < e := by omega
        by_cases hps : s < c + nf
        · -- overlapping packet strictly before the end bound: emit and go on
          rw [if_pos ⟨hps, hce⟩]
          rw [if_neg (show ¬ e < c + nf by omega)]
          by_cases hnf0 : nf = 0
          · -- empty packet: no samples, counter unchanged
            subst hnf0
            have hpnil : p = [] := by
              rw [← List.length_eq_zero, hplen, Nat.mul_zero]
            subst hpnil
            simp only [List.length_nil, List.drop_nil, List.take_nil, ite_self,
              Nat.add_zero, List.nil_append]
            exact ih c hrest
          · have hanf : s - c < nf := by omega
            have hts : (if c < s then (s - c) * ch else 0) = (s - c) * ch := by
              by_cases h : c < s
              · rw [if_pos h]
              · rw [if_neg h, Nat.sub_eq_zero_of_le (by omega), Nat.zero_mul]
            rw [hts]
            have hguard : (s - c) * ch < p.length := by
              rw [hplen, Nat.mul_comm ch nf]
              exact (Nat.mul_lt_mul_right hch).2 hanf
            rw [if_pos hguard]
            have hout : (p.drop ((s - c) * ch)).take (p.length - (s - c) * ch)
                = p.drop ((s - c) * ch) := by
              apply List.take_of_length_le
              rw [List.length_drop]
            rw [hout, ih (c + nf) hrest]
            have hs0 : s - (c + nf) = 0 := by omega
            rw [hs0, Nat.mul_zero, List.drop_zero, Nat.sub_zero]
            rw [List.drop_append_eq_append_drop]
            have hd : ch * (s - c) ≤ p.length := by
              rw [hplen]; exact Nat.mul_le_mul_left _ (by omega)
            rw [Nat.sub_eq_zero_of_le hd, List.drop_zero]
            rw [List.take_append_eq_append_take]
            have hfull : (p.drop (ch * (s - c))).length ≤ ch * ((e - c) - (s - c)) := by
              rw [List.length_drop, hplen, Nat.mul_sub ch (e - c) (s - c)]
              have h1 : ch * nf ≤ ch * (e - c) := Nat.mul_le_mul_left _ (by omega)
              omega
            rw [List.take_of_length_le hfull]
            congr 1
            · rw [Nat.mul_comm]
            · congr 1
              rw [List.length_drop, hplen]
              have e0 : e - (c + nf) = e - c - nf := by omega
              rw [e0, Nat.mul_sub ch (e - c) nf, Nat.mul_sub ch (e - c) (s - c)]
              have h1 : ch * (s - c) ≤ ch * nf := Nat.mul_le_mul_left _ (by omega)
              have h2 : ch * nf ≤ ch * (e - c) := Nat.mul_le_mul_left _ (by omega)
              omega
        · -- the packet ends at or before the trim start: emit nothing, go on
          rw [if_neg (fun hcon => hps hcon.1)]
          rw [ih (c + nf) hrest, List.nil_append]
          rw [List.drop_append_eq_append_drop]
          have hd : p.length ≤ ch * (s - c) := by
            rw [hplen]; exact Nat.mul_le_mul_left _ (by omega)
          rw [List.drop_of_length_le hd, List.nil_append]
          congr 1
          · congr 1
            omega
          · congr 1
            rw [hplen]
            have e0 : s - (c + nf) = s - c - nf := by omega
            rw [e0, Nat.mul_sub ch (s - c) nf]

/-- **C1**: for every fixed decoded interleaved sample stream, channel count
and trim bounds `start_sample = s`, `end_sample = e` (the floors of
`start_time * sample_rate` and `end_time * sample_rate`), the concatenation
of the sub-ranges `convert_to_mp3_trimmed` passes to the encoder equals
exactly the interleaved samples whose frame index lies in `[s, e)`
intersected with the stream's extent, and the concatenation is therefore
identical for every way of chunking the same stream into packets. -/
theorem trimEncoded_is_range_slice {α : Type*} (ch s e : Nat) (hch : 0 < ch)
    (ps : List (List α)) (hdiv : ∀ p ∈ ps, ch ∣ p.length) :
    trimEncoded ch s e 0 ps = (ps.flatten.drop (ch * s)).take (ch * (e - s)) ∧
    ∀ qs : List (List α), (∀ q ∈ qs, ch ∣ q.length) → qs.flatten = ps.flatten →
      trimEncoded ch s e 0 qs = trimEncoded ch s e 0 ps := by
  have h1 := trimEncoded_eq_slice ch s e hch ps 0 hdiv
  simp only [Nat.sub_zero] at h1
  refine ⟨h1, ?_⟩
  intro qs hq hflat
  have h2 := trimEncoded_eq_slice ch s e hch qs 0 hq
  simp only [Nat.sub_zero] at h2
  rw [h1, h2, hflat]

/-- Witness for C1 at a concrete stream: 2 channels, two packets, trimming
frames `[1, 2)` extracts exactly the second interleaved frame. -/
theorem trimEncoded_is_range_slice_witness :
    trimEncoded 2 1 2 0 [[(10 : ℚ), 11, 12, 13], [14, 15]] =
      ([[(10 : ℚ), 11, 12, 13], [14, 15]].flatten.drop (2 * 1)).take (2 * (2 - 1)) :=
  (trimEncoded_is_range_slice 2 1 2 (by decide) _ (by decide)).1

/-! ## Tempo detection (`src/src-tauri/src/audio_analysis.rs`, `detect_bpm`) -/

/-- The short-time-energy loop of `detect_bpm` (audio_analysis.rs lines
131-139): `while i + frame_size < samples.len()`, push `Σ s*s` over
`samples[i..i+frame_size]`, then `i += hop_size`.  The structural fuel
bounds the remaining iterations; `energyFrames` passes `samples.length`,
which suffices whenever `hop_size ≥ 1` (`energyLoop_length`).  For
`sample_rate < 100` the Rust loop has `hop_size = 0` and never terminates
on long enough input; no theorem below concerns that case. -/
def energyLoop (f h : Nat) (samples : List ℚ) : Nat → Nat → List ℚ
  | _, 0 => []
  | i, fuel + 1 =>
      if i + f < samples.length then
        (((samples.drop i).take f).map (fun s => s * s)).sum
          :: energyLoop f h samples (i + h) fuel
      else []

/-- The energy-frame sequence of `detect_bpm` (audio_analysis.rs lines
127-139): `hop_size = sample_rate / 100` (10 ms), `frame_size =
sample_rate / 10` (100 ms). -/
def energyFrames (samples : List ℚ) (sample_rate : Nat) : List ℚ :=
  energyLoop (sample_rate / 10) (sample_rate / 100) samples 0 samples.length

/-- Onset-strength sequence (audio_analysis.rs lines 145-158):
`onsets[0] = 0`, `onsets[i] = max (energies[i] - energies[i-1]) 0`, then
every entry is divided by the peak `fold(0.0, f32::max)` if that is
positive. -/
def onsetsOf (energies : List ℚ) : List ℚ :=
  let onsets := 0 :: (energies.tail.zip energies).map (fun q => max (q.1 - q.2) 0)
  let max_onset := onsets.foldl max 0
  if 0 < max_onset then onsets.map (fun x => x / max_onset) else onsets

/-- One iteration of the autocorrelation loop of `detect_bpm`
(audio_analysis.rs lines 172-186): the mean product at the given lag
(`count = onsets.len() - lag` factors), updating
`(best_bpm, best_correlation)` when strictly larger. -/
def lagStep (onsets : List ℚ) (frames_per_second : ℚ) (st : ℚ × ℚ) (lag : Nat) : ℚ × ℚ :=
  let correlation := ((onsets.zip (onsets.drop lag)).map (fun q => q.1 * q.2)).sum
      / ((onsets.length - lag : Nat) : ℚ)
  if st.2 < correlation then (frames_per_second * 60 / (lag : ℚ), correlation) else st

/-- Key step for termination of the octave-folding loops: taking a ceiling
after halving strictly shrinks while the value exceeds 1. -/
theorem ceil_half_toNat_lt (x : ℚ) (hx : 1 < x) : (⌈x / 2⌉).toNat < (⌈x⌉).toNat := by
  have h2 : 2 ≤ ⌈x⌉ := by
    have h1 : 1 < ⌈x⌉ := Int.lt_ceil.2 (by exact_mod_cast hx)
    omega
  have hle : x ≤ (⌈x⌉ : ℚ) := Int.le_ceil x
  have hstep : ⌈x / 2⌉ ≤ ⌈x⌉ - 1 := by
    apply Int.ceil_le.2
    push_cast
    have : (2 : ℚ) ≤ (⌈x⌉ : ℚ) := by exact_mod_cast h2
    linarith
  omega

/-- The upward octave-folding loop of `detect_bpm` (audio_analysis.rs lines
189-191): `while best_bpm < 60.0 { best_bpm *= 2.0 }`.  The Rust loop
diverges for `best_bpm ≤ 0`, so the recursion is guarded by `0 < b`; every
value reaching it in `detect_bpm` is positive (`detect_bpm_bpm_in_range`). -/
def foldBpmUp (b : ℚ) : ℚ :=
  if h : 0 < b ∧ b < 60 then foldBpmUp (2 * b) else b
termination_by (⌈(60 : ℚ) / b⌉).toNat
decreasing_by
  have hb : 0 < b := h.1
  have h60 : 1 < (60 : ℚ) / b := (one_lt_div hb).2 h.2
  have hhalf : (60 : ℚ) / (2 * b) = ((60 : ℚ) / b) / 2 := by
    rw [mul_comm, ← div_div]
  rw [hhalf]
  exact ceil_half_toNat_lt _ h60

/-- The downward octave-folding loop of `detect_bpm` (audio_analysis.rs
lines 192-194): `while best_bpm > 180.0 { best_bpm /= 2.0 }`. -/
def foldBpmDown (b : ℚ) : ℚ :=
  if h : 180 < b then foldBpmDown (b / 2) else b
termination_by (⌈b / 180⌉).toNat
decreasing_by
  have h180 : 1 < b / 180 := (one_lt_div (by norm_num)).2 h
  have hhalf : b / 2 / 180 = (b / 180) / 2 := by
    rw [div_div, div_div, mul_comm]
  rw [hhalf]
  exact ceil_half_toNat_lt _ h180

/-- The body of `detect_bpm` after the minimum-length guard
(audio_analysis.rs lines 127-202): energy frames, onset sequence, lag
search over `[min_lag, max_lag)`, octave folding, confidence
`min (best_correlation * 100) 100` and rounding to the nearest integer. -/
def detectBpmCore (samples : List ℚ) (sample_rate : Nat) : Except String (ℚ × ℚ) :=
  let energies := energyFrames samples sample_rate
  if energies.length < 10 then .error "Not enough data for BPM detection"
  else
    let onsets := onsetsOf energies
    let frames_per_second : ℚ := (sample_rate : ℚ) / ((sample_rate / 100 : Nat) : ℚ)
    let min_lag := (⌊frames_per_second * 60 / 200⌋).toNat
    let max_lag := min (⌊frames_per_second * 60 / 60⌋).toNat (onsets.length / 2)
    let best := (List.range' min_lag (max_lag - min_lag)).foldl
      (lagStep onsets frames_per_second) (120, 0)
    .ok (((round (foldBpmDown (foldBpmUp best.1)) : ℤ) : ℚ), min (best.2 * 100) 100)

/-- `detect_bpm` (audio_analysis.rs lines 122-203) on the decoded mono
sample list: `Err` if fewer than `sample_rate * 2` samples (2 seconds),
otherwise the rounded BPM and the confidence.  The `f32`/`f64` arithmetic
of the Rust code is modelled exactly over `ℚ`. -/
def detect_bpm (samples : List ℚ) (sample_rate : Nat) : Except String (ℚ × ℚ) :=
  if samples.length < sample_rate * 2 then
    .error "Audio too short for BPM detection"
  else detectBpmCore samples sample_rate

/-- Length of the energy loop output: one frame per hop while a full frame
still fits strictly inside the signal. -/
theorem energyLoop_length (f h : Nat) (samples : List ℚ) (hh : 0 < h) :
    ∀ (fuel i : Nat), samples.length - i ≤ fuel →
      (energyLoop f h samples i fuel).length =
        if i + f < samples.length then (samples.length - i - f - 1) / h + 1 else 0 := by
  intro fuel
  induction fuel with
  | zero =>
      intro i hi
      rw [if_neg (by omega)]
      rfl
  | succ fuel ih =>
      intro i hi
      by_cases hc : i + f < samples.length
      · rw [if_pos hc]
        have hrec := ih (i + h) (by omega)
        simp only [energyLoop, if_pos hc, List.length_cons, hrec]
        by_cases hc2 : i + h + f < samples.length
        · rw [if_pos hc2]
          have e1 : samples.length - i - f - 1
              = (samples.length - (i + h) - f - 1) + h := by omega
          rw [e1, Nat.add_div_right _ hh]
        · rw [if_neg hc2]
          have hlt : samples.length - i - f - 1 < h := by omega
          rw [Nat.div_eq_of_lt hlt]
      · simp only [energyLoop, if_neg hc]
        rfl

/-- The number of energy frames on a long-enough signal, in closed form. -/
theorem energyFrames_length (samples : List ℚ) (sr : Nat) (hsr : 100 ≤ sr)
    (hlen : sr / 10 < samples.length) :
    (energyFrames samples sr).length
      = (samples.length - sr / 10 - 1) / (sr / 100) + 1 := by
  have hh : 0 < sr / 100 := Nat.div_pos (by omega) (by omega)
  have h0 := energyLoop_length (sr / 10) (sr / 100) samples hh samples.length 0 (by omega)
  rw [energyFrames, h0, if_pos (by omega), Nat.sub_zero]

/-! ### Octave folding and lag-search bounds -/

theorem foldBpmUp_ge_60 : ∀ b : ℚ, 0 < b → 60 ≤ foldBpmUp b := by
  intro b
  induction b using foldBpmUp.induct with
  | case1 b h ih =>
      intro _
      rw [foldBpmUp, dif_pos h]
      exact ih (by linarith [h.1])
  | case2 b h =>
      intro hb
      rw [foldBpmUp, dif_neg h]
      rcases not_and_or.1 h with h1 | h1
      · exact absurd hb h1
      · exact not_lt.1 h1

theorem foldBpmDown_le_180 : ∀ b : ℚ, foldBpmDown b ≤ 180 := by
  intro b
  induction b using foldBpmDown.induct with
  | case1 b h ih => rw [foldBpmDown, dif_pos h]; exact ih
  | case2 b h => rw [foldBpmDown, dif_neg h]; exact not_lt.1 h

theorem foldBpmDown_ge_60 : ∀ b : ℚ, 60 ≤ b → 60 ≤ foldBpmDown b := by
  intro b
  induction b using foldBpmDown.induct with
  | case1 b h ih =>
      intro _
      rw [foldBpmDown, dif_pos h]
      exact ih (by linarith)
  | case2 b h =>
      intro hb
      rw [foldBpmDown, dif_neg h]
      exact hb

theorem round_bounds (x : ℚ) (h1 : 60 ≤ x) (h2 : x ≤ 180) :
    (60 : ℚ) ≤ ((round x : ℤ) : ℚ) ∧ ((round x : ℤ) : ℚ) ≤ 180 := by
  rw [round_eq]
  constructor
  · have h : (60 : ℤ) ≤ ⌊x + 1 / 2⌋ := Int.le_floor.2 (by push_cast; linarith)
    exact_mod_cast h
  · have hy : (⌊x + 1 / 2⌋ : ℚ) ≤ x + 1 / 2 := Int.floor_le _
    have hz : ⌊x + 1 / 2⌋ < 181 := by
      have : (⌊x + 1 / 2⌋ : ℚ) < 181 := by linarith
      exact_mod_cast this
    have h180 : ⌊x + 1 / 2⌋ ≤ 180 := by omega
    exact_mod_cast h180

theorem lagFold_fst_pos (onsets : List ℚ) (fps : ℚ) (hfps : 0 < fps) :
    ∀ (lags : List Nat), (∀ l ∈ lags, 0 < l) → ∀ (st : ℚ × ℚ), 0 < st.1 →
      0 < (lags.foldl (lagStep onsets fps) st).1 := by
  intro lags
  induction lags with
  | nil => intro _ st hst; exact hst
  | cons l ls ih =>
      intro hl st hst
      rw [List.foldl_cons]
      apply ih (fun x hx => hl x (List.mem_cons_of_mem _ hx))
      simp only [lagStep]
      split
      · show 0 < fps * 60 / (l : ℚ)
        have hl0 : 0 < l := hl l (List.mem_cons_self _ _)
        have hlq : (0 : ℚ) < (l : ℚ) := by exact_mod_cast hl0
        positivity
      · exact hst

theorem lagFold_snd_nonneg (onsets : List ℚ) (fps : ℚ) :
    ∀ (lags : List Nat) (st : ℚ × ℚ), 0 ≤ st.2 →
      0 ≤ (lags.foldl (lagStep onsets fps) st).2 := by
  intro lags
  induction lags with
  | nil => intro st hst; exact hst
  | cons l ls ih =>
      intro st hst
      rw [List.foldl_cons]
      apply ih
      simp only [lagStep]
      split
      · rename_i hcorr
        exact le_of_lt (lt_of_le_of_lt hst hcorr)
      · exact hst

theorem fps_ge_100 (sr : Nat) (hsr : 100 ≤ sr) :
    (100 : ℚ) ≤ (sr : ℚ) / ((sr / 100 : Nat) : ℚ) := by
  have hh : 0 < sr / 100 := Nat.div_pos (by omega) (by omega)
  have hhq : (0 : ℚ) < ((sr / 100 : Nat) : ℚ) := by exact_mod_cast hh
  rw [le_div_iff₀ hhq]
  have hmul : 100 * (sr / 100) ≤ sr := by
    have := Nat.div_mul_le_self sr 100
    omega
  exact_mod_cast hmul

/-! ### Claims C7 and C3 -/

/-- **C7 counterexample**: with `sample_rate = 200` (`frame_size = 20`,
`hop_size = 2`) and 25 samples, the energy loop emits 3 frames while
`⌊(N - frame_size)/hop_size⌋ = ⌊5/2⌋ = 2` — the claimed count is off
whenever `hop_size` does not divide `N - frame_size`. -/
theorem energy_frame_count_cex :
    (energyFrames (List.replicate 25 (0 : ℚ)) 200).length = 3 ∧
      ((List.replicate 25 (0 : ℚ)).length - 200 / 10) / (200 / 100) = 2 ∧
      (3 : Nat) ≠ 2 := by
  refine ⟨by decide, by decide, by decide⟩

/-- **C7 amended**: for `N > frame_size` (and `sample_rate ≥ 100`, so that
`hop_size ≥ 1` and the Rust loop terminates), the number of energy frames
computed by `detect_bpm` is `⌈(N - frame_size)/hop_size⌉ =
(N - frame_size + hop_size - 1) / hop_size`, with
`frame_size = sample_rate/10` and `hop_size = sample_rate/100`: the loop
condition `i + frame_size < N` makes the count a ceiling, not a floor. -/
theorem detect_bpm_energy_frame_count (samples : List ℚ) (sr : Nat)
    (hsr : 100 ≤ sr) (hlen : sr / 10 < samples.length) :
    (energyFrames samples sr).length
      = (samples.length - sr / 10 + (sr / 100) - 1) / (sr / 100) := by
  rw [energyFrames_length samples sr hsr hlen]
  have hh : 0 < sr / 100 := Nat.div_pos (by omega) (by omega)
  have e1 : samples.length - sr / 10 + sr / 100 - 1
      = (samples.length - sr / 10 - 1) + sr / 100 := by omega
  rw [e1, Nat.add_div_right _ hh]

/-- Witness for C7's amended theorem at a concrete input. -/
theorem detect_bpm_energy_frame_count_witness :
    (energyFrames (List.replicate 25 (0 : ℚ)) 200).length
      = ((List.replicate 25 (0 : ℚ)).length - 200 / 10 + 200 / 100 - 1) / (200 / 100) :=
  detect_bpm_energy_frame_count (List.replicate 25 (0 : ℚ)) 200 (by decide) (by decide)

/-- **C3**: whenever `detect_bpm` returns `Ok`, the returned BPM (after
octave folding and rounding to the nearest integer) lies within
`[60, 180]`.  The hypothesis `100 ≤ sample_rate` makes `hop_size ≥ 1`; for
smaller rates the Rust energy loop never terminates on input passing the
length guard, so `Ok` is never returned there. -/
theorem detect_bpm_bpm_in_range (samples : List ℚ) (sr : Nat) (b c : ℚ)
    (hsr : 100 ≤ sr) (h : detect_bpm samples sr = .ok (b, c)) :
    60 ≤ b ∧ b ≤ 180 := by
  rw [detect_bpm] at h
  by_cases hshort : samples.length < sr * 2
  · rw [if_pos hshort] at h; cases h
  · rw [if_neg hshort] at h
    simp only [detectBpmCore] at h
    by_cases h10 : (energyFrames samples sr).length < 10
    · rw [if_pos h10] at h; cases h
    · rw [if_neg h10, Except.ok.injEq, Prod.mk.injEq] at h
      obtain ⟨hb, hc⟩ := h
      subst hb
      have hfps : (100 : ℚ) ≤ (sr : ℚ) / ((sr / 100 : Nat) : ℚ) := fps_ge_100 sr hsr
      have hfps0 : (0 : ℚ) < (sr : ℚ) / ((sr / 100 : Nat) : ℚ) := by linarith
      have hminlag : 0 < (⌊(sr : ℚ) / ((sr / 100 : Nat) : ℚ) * 60 / 200⌋).toNat := by
        have h30 : (30 : ℤ) ≤ ⌊(sr : ℚ) / ((sr / 100 : Nat) : ℚ) * 60 / 200⌋ :=
          Int.le_floor.2 (by push_cast; linarith)
        omega
      have hlags : ∀ l ∈ List.range'
          (⌊(sr : ℚ) / ((sr / 100 : Nat) : ℚ) * 60 / 200⌋).toNat
          (min (⌊(sr : ℚ) / ((sr / 100 : Nat) : ℚ) * 60 / 60⌋).toNat
              ((onsetsOf (energyFrames samples sr)).length / 2)
            - (⌊(sr : ℚ) / ((sr / 100 : Nat) : ℚ) * 60 / 200⌋).toNat), 0 < l := by
        intro l hl
        have hm := (List.mem_range'_1.1 hl).1
        omega
      have hpos := lagFold_fst_pos (onsetsOf (energyFrames samples sr))
        ((sr : ℚ) / ((sr / 100 : Nat) : ℚ)) hfps0 _ hlags (120, 0) (by norm_num)
      exact round_bounds _ (foldBpmDown_ge_60 _ (foldBpmUp_ge_60 _ hpos))
        (foldBpmDown_le_180 _)

/-! ### Evaluation of `detect_bpm` on an all-zero signal (for witnesses) -/

theorem energyLoop_zero_mem (f h n : Nat) :
    ∀ (fuel i : Nat) (x : ℚ), x ∈ energyLoop f h (List.replicate n (0 : ℚ)) i fuel → x = 0 := by
  intro fuel
  induction fuel with
  | zero =>
      intro i x hx
      simp only [energyLoop] at hx
      cases hx
  | succ fuel ih =>
      intro i x hx
      simp only [energyLoop] at hx
      by_cases hc : i + f < (List.replicate n (0 : ℚ)).length
      · rw [if_pos hc] at hx
        rcases List.mem_cons.1 hx with rfl | hx'
        · rw [List.drop_replicate, List.take_replicate, List.map_replicate,
            List.sum_replicate]
          norm_num
        · exact ih _ _ hx'
      · rw [if_neg hc] at hx
        cases hx

theorem energyFrames_replicate_zero (n sr : Nat) (hsr : 100 ≤ sr) (hlen : sr / 10 < n) :
    energyFrames (List.replicate n (0 : ℚ)) sr
      = List.replicate ((n - sr / 10 - 1) / (sr / 100) + 1) 0 := by
  rw [List.eq_replicate_iff]
  constructor
  · rw [energyFrames_length _ _ hsr (by simpa using hlen)]
    simp
  · intro b hb
    exact energyLoop_zero_mem _ _ _ _ _ _ hb

theorem foldl_max_replicate_zero : ∀ m : Nat, List.foldl max (0 : ℚ) (List.replicate m 0) = 0 := by
  intro m
  induction m with
  | zero => rfl
  | succ m ih =>
      rw [List.replicate_succ, List.foldl_cons, max_self]
      exact ih

theorem onsetsOf_replicate_zero (n : Nat) (hn : 1 ≤ n) :
    onsetsOf (List.replicate n (0 : ℚ)) = List.replicate n 0 := by
  have hmin : (n - 1) ⊓ n = n - 1 := min_eq_left (by omega)
  simp only [onsetsOf, List.tail_replicate, List.zip_replicate, List.map_replicate, hmin]
  have hval : max ((0 : ℚ) - 0) 0 = 0 := by norm_num
  rw [hval]
  have hfold : List.foldl max (0 : ℚ) (0 :: List.replicate (n - 1) 0) = 0 := by
    rw [List.foldl_cons, max_self]
    exact foldl_max_replicate_zero _
  rw [hfold, if_neg (by norm_num), ← List.replicate_succ]
  congr 1
  omega

theorem lagStep_zero_onsets (n : Nat) (fps : ℚ) (st : ℚ × ℚ) (l : Nat) (hst : 0 ≤ st.2) :
    lagStep (List.replicate n (0 : ℚ)) fps st l = st := by
  have hcorr : (((List.replicate n (0 : ℚ)).zip ((List.replicate n (0 : ℚ)).drop l)).map
        (fun q => q.1 * q.2)).sum
      / (((List.replicate n (0 : ℚ)).length - l : Nat) : ℚ) = 0 := by
    rw [List.drop_replicate, List.zip_replicate, List.map_replicate, List.sum_replicate]
    norm_num
  simp only [lagStep, hcorr]
  rw [if_neg (not_lt.2 hst)]

theorem lagFold_zero_onsets (n : Nat) (fps : ℚ) :
    ∀ (lags : List Nat) (st : ℚ × ℚ), 0 ≤ st.2 →
      lags.foldl (lagStep (List.replicate n (0 : ℚ)) fps) st = st := by
  intro lags
  induction lags with
  | nil => intro st _; rfl
  | cons l ls ih =>
      intro st hst
      rw [List.foldl_cons, lagStep_zero_onsets n fps st l hst]
      exact ih st hst

/-- Concrete evaluation of `detect_bpm` on 200 zero samples at a nominal
sample rate of 100 Hz: the lag search never improves on the initial
`(120, 0)`, so the result is BPM 120 with confidence 0. -/
theorem detect_bpm_zeros_eval :
    detect_bpm (List.replicate 200 (0 : ℚ)) 100 = .ok (120, 0) := by
  have e1 : energyFrames (List.replicate 200 (0 : ℚ)) 100 = List.replicate 190 0 := by
    rw [energyFrames_replicate_zero 200 100 (by norm_num) (by norm_num)]
  have e2 : onsetsOf (List.replicate 190 (0 : ℚ)) = List.replicate 190 0 :=
    onsetsOf_replicate_zero 190 (by norm_num)
  rw [detect_bpm, if_neg (by rw [List.length_replicate]; norm_num)]
  simp only [detectBpmCore, e1, e2]
  rw [if_neg (by rw [List.length_replicate]; norm_num)]
  rw [lagFold_zero_onsets 190 _ _ (120, 0) (by norm_num)]
  have e4 : foldBpmUp 120 = 120 := by
    rw [foldBpmUp]
    norm_num
  have e5 : foldBpmDown 120 = 120 := by
    rw [foldBpmDown]
    norm_num
  rw [show ((120 : ℚ), (0 : ℚ)).1 = 120 from rfl, show ((120 : ℚ), (0 : ℚ)).2 = 0 from rfl,
    e4, e5]
  norm_num [round_eq, Except.ok.injEq, Prod.mk.injEq]

/-- Witness for C3 at a concrete input: 200 zero samples at rate 100 give
BPM 120 ∈ [60, 180]. -/
theorem detect_bpm_bpm_in_range_witness : (60 : ℚ) ≤ 120 ∧ (120 : ℚ) ≤ 180 :=
  detect_bpm_bpm_in_range (List.replicate 200 0) 100 120 0 (by norm_num) detect_bpm_zeros_eval

/-! ## Key detection (`src/src-tauri/src/audio_analysis.rs`, `detect_key`)

The chromagram/key pipeline takes square roots, cosines and non-integer
powers (`f64::sqrt`, `cos`, `powf`), so it is modelled over `ℝ`; the `f32`
mono samples are cast on entry, mirroring `s as f64`. -/

/-- `MAJOR_PROFILE` (audio_analysis.rs line 206). -/
def MAJOR_PROFILE : List ℝ :=
  [6.35, 2.23, 3.48, 2.33, 4.38, 4.09, 2.52, 5.19, 2.39, 3.66, 2.29, 2.88]

/-- `MINOR_PROFILE` (audio_analysis.rs line 207). -/
def MINOR_PROFILE : List ℝ :=
  [6.33, 2.68, 3.52, 5.38, 2.60, 3.53, 2.54, 4.75, 3.98, 2.69, 3.34, 3.17]

/-- `KEY_NAMES` (audio_analysis.rs line 208): the twelve sharp-spelled
pitch names C, C#, D, D#, E, F, F#, G, G#, A, A#, B in order. -/
def KEY_NAMES : List String :=
  ["C", "C#", "D", "D#", "E", "F"] ++ ["F#", "G", "G#", "A", "A#", "B"]

/-- `pearson_correlation` (audio_analysis.rs lines 325-341); a zero
denominator yields correlation 0. -/
noncomputable def pearson_correlation (x y : List ℝ) : ℝ :=
  let n : ℝ := x.length
  let sum_x := x.sum
  let sum_y := y.sum
  let sum_xy := ((x.zip y).map (fun q => q.1 * q.2)).sum
  let sum_x2 := (x.map (fun a => a * a)).sum
  let sum_y2 := (y.map (fun a => a * a)).sum
  let numerator := n * sum_xy - sum_x * sum_y
  let denominator :=
    Real.sqrt ((n * sum_x2 - sum_x * sum_x) * (n * sum_y2 - sum_y * sum_y))
  if denominator = 0 then 0 else numerator / denominator

/-- The inner double loop of `compute_chromagram` (audio_analysis.rs lines
286-308): for each pitch class and each octave in `2..7`, autocorrelate
the windowed frame at the lag of the note's frequency and accumulate
positive correlations into the pitch class's bin. -/
noncomputable def chromaAccumFrame (sample_rate : Nat) (windowed : List ℝ)
    (chroma : List ℝ) : List ℝ :=
  (List.range 12).foldl (fun ch note =>
    (List.range' 2 5).foldl (fun ch2 octave =>
      let midi_note : Nat := note + octave * 12
      let freq : ℝ := 440 * (2 : ℝ) ^ (((midi_note : ℝ) - 69) / 12)
      let lag := (⌊(sample_rate : ℝ) / freq⌋).toNat
      if 0 < lag ∧ lag < 4096 / 2 then
        let corr := (((windowed.zip (windowed.drop lag)).map (fun q => q.1 * q.2)).sum)
            / ((4096 - lag : Nat) : ℝ)
        if 0 < corr then ch2.set note (ch2.getD note 0 + corr) else ch2
      else ch2) ch) chroma

/-- The frame loop of `compute_chromagram` (audio_analysis.rs lines
266-312): 4096-sample frames, 2048-sample hop, Hann-type window
`0.5 * (1 - cos (2 π n / (frame_size - 1)))`; returns the accumulated
chroma bins and the frame count.  Fuel-indexed like `energyLoop`. -/
noncomputable def chromaLoop (samples : List ℚ) (sample_rate : Nat) :
    Nat → Nat → List ℝ → Nat → List ℝ × Nat
  | _, 0, chroma, cnt => (chroma, cnt)
  | i, fuel + 1, chroma, cnt =>
      if i + 4096 < samples.length then
        let frame := (samples.drop i).take 4096
        let windowed := frame.enum.map (fun q =>
          ((q.2 : ℝ)) * (0.5 * (1 - Real.cos (2 * Real.pi * (q.1 : ℝ) / ((4096 - 1 : Nat) : ℝ)))))
        chromaLoop samples sample_rate (i + 2048) fuel
          (chromaAccumFrame sample_rate windowed chroma) (cnt + 1)
      else (chroma, cnt)

/-- `compute_chromagram` (audio_analysis.rs lines 260-322): accumulate over
all frames, then divide each bin by the frame count when it is positive. -/
noncomputable def compute_chromagram (samples : List ℚ) (sample_rate : Nat) : List ℝ :=
  let res := chromaLoop samples sample_rate 0 samples.length (List.replicate 12 0) 0
  if 0 < res.2 then res.1.map (fun c => c / (res.2 : ℝ)) else res.1

/-- `correlation > best_correlation`, where `best_correlation` starts at
`f64::NEG_INFINITY`; `none` models negative infinity, which every finite
correlation exceeds. -/
def improves : Option ℝ → ℝ → Prop
  | none, _ => True
  | some b, c => b < c

noncomputable instance improvesDecidable (o : Option ℝ) (c : ℝ) : Decidable (improves o c) :=
  match o with
  | none => isTrue trivial
  | some b => inferInstanceAs (Decidable (b < c))

/-- The rotation `rotated[i] = normalized[(i + root) % 12]` of the
24-candidate search (audio_analysis.rs lines 232-236). -/
noncomputable def rotatedAt (normalized : List ℝ) (root : Nat) : List ℝ :=
  (List.range 12).map (fun i => normalized.getD ((i + root) % 12) 0)

/-- One root's two candidate updates in the 24-candidate search of
`detect_key` (audio_analysis.rs lines 231-251): correlate the rotated
chromagram against the major then the minor profile, keeping the strictly
best correlation and its label. -/
noncomputable def keyStep (normalized : List ℝ) (st : String × Option ℝ) (root : Nat) :
    String × Option ℝ :=
  let rotated := rotatedAt normalized root
  let major_corr := pearson_correlation rotated MAJOR_PROFILE
  let st1 :=
    if improves st.2 major_corr then (KEY_NAMES.getD root "" ++ " Major", some major_corr)
    else st
  let minor_corr := pearson_correlation rotated MINOR_PROFILE
  if improves st1.2 minor_corr then (KEY_NAMES.getD root "" ++ "m", some minor_corr)
  else st1

/-- The full 24-candidate search (audio_analysis.rs lines 228-251),
starting from `best_key = "C"`, `best_correlation = NEG_INFINITY`. -/
noncomputable def keySearch (normalized : List ℝ) : String × Option ℝ :=
  (List.range 12).foldl (keyStep normalized) ("C", none)

/-- The confidence clamp of `detect_key` (audio_analysis.rs line 254):
`((best_correlation + 1)/2 * 100).max(0).min(100)`.  The `none` branch is
the unreachable `best_correlation = NEG_INFINITY` case, whose clamped
confidence in Rust is 0. -/
noncomputable def keyConfidence : Option ℝ → ℝ
  | some v => min (max ((v + 1) / 2 * 100) 0) 100
  | none => 0

/-- The body of `detect_key` after the length guard (audio_analysis.rs
lines 216-256): chromagram, sum-normalization, search, confidence clamp. -/
noncomputable def detectKeyCore (samples : List ℚ) (sample_rate : Nat) : String × ℝ :=
  let chromagram := compute_chromagram samples sample_rate
  let s := chromagram.sum
  let normalized := if 0 < s then chromagram.map (fun c => c / s) else chromagram
  let best := keySearch normalized
  (best.1, keyConfidence best.2)

/-- `detect_key` (audio_analysis.rs lines 211-256): `Err` if fewer than
`sample_rate` samples (1 second), otherwise the best key label and the
confidence. -/
noncomputable def detect_key (samples : List ℚ) (sample_rate : Nat) :
    Except String (String × ℝ) :=
  if samples.length < sample_rate then .error "Audio too short for key detection"
  else .ok (detectKeyCore samples sample_rate)

/-! ### Claim C6: confidence ranges -/

theorem keyConfidence_in_range (o : Option ℝ) : 0 ≤ keyConfidence o ∧ keyConfidence o ≤ 100 := by
  cases o with
  | none => constructor <;> norm_num [keyConfidence]
  | some v =>
      constructor
      · exact le_min (le_max_right _ _) (by norm_num)
      · exact min_le_right _ _

/-- **C6**: whenever `detect_bpm` returns `Ok`, its confidence lies in
`[0, 100]`, and whenever `detect_key` returns `Ok`, its confidence lies in
`[0, 100]`. -/
theorem confidences_in_range :
    (∀ (samples : List ℚ) (sr : Nat) (b c : ℚ),
        detect_bpm samples sr = .ok (b, c) → 0 ≤ c ∧ c ≤ 100) ∧
    (∀ (samples : List ℚ) (sr : Nat) (k : String) (c : ℝ),
        detect_key samples sr = .ok (k, c) → 0 ≤ c ∧ c ≤ 100) := by
  constructor
  · intro samples sr b c h
    rw [detect_bpm] at h
    by_cases hshort : samples.length < sr * 2
    · rw [if_pos hshort] at h; cases h
    · rw [if_neg hshort] at h
      simp only [detectBpmCore] at h
      by_cases h10 : (energyFrames samples sr).length < 10
      · rw [if_pos h10] at h; cases h
      · rw [if_neg h10, Except.ok.injEq, Prod.mk.injEq] at h
        obtain ⟨hb, hc⟩ := h
        subst hc
        refine ⟨le_min (mul_nonneg ?_ (by norm_num)) (by norm_num), min_le_right _ _⟩
        exact lagFold_snd_nonneg _ _ _ (120, 0) (by norm_num)
  · intro samples sr k c h
    rw [detect_key] at h
    by_cases hshort : samples.length < sr
    · rw [if_pos hshort] at h; cases h
    · rw [if_neg hshort, Except.ok.injEq] at h
      have hc : (detectKeyCore samples sr).2 = c := by rw [h]
      rw [← hc]
      simp only [detectKeyCore]
      exact keyConfidence_in_range _

/-! ### Evaluation of `detect_key` with no samples (for the C6 witness) -/

theorem getD_replicate_zero (n i : Nat) : (List.replicate n (0 : ℝ)).getD i 0 = 0 := by
  induction n generalizing i with
  | zero => rfl
  | succ n ih =>
      cases i with
      | zero => rfl
      | succ i =>
          rw [List.replicate_succ, List.getD_cons_succ]
          exact ih i

theorem rotatedAt_replicate_zero (root : Nat) :
    rotatedAt (List.replicate 12 (0 : ℝ)) root = List.replicate 12 0 := by
  rw [List.eq_replicate_iff]
  constructor
  · simp [rotatedAt]
  · intro b hb
    simp only [rotatedAt, List.mem_map] at hb
    obtain ⟨i, _, rfl⟩ := hb
    exact getD_replicate_zero _ _

theorem pearson_correlation_zero_left (n : Nat) (y : List ℝ) :
    pearson_correlation (List.replicate n 0) y = 0 := by
  have hx2 : ((List.replicate n (0 : ℝ)).map (fun a => a * a)).sum = 0 := by
    rw [List.map_replicate, mul_zero, List.sum_replicate, smul_zero]
  have hx : (List.replicate n (0 : ℝ)).sum = 0 := by
    rw [List.sum_replicate, smul_zero]
  simp only [pearson_correlation, hx, hx2]
  norm_num [Real.sqrt_zero]

theorem keyStep_zeros (k : String) (root : Nat) :
    keyStep (List.replicate 12 0) (k, some 0) root = (k, some 0) := by
  simp only [keyStep, rotatedAt_replicate_zero, pearson_correlation_zero_left]
  rw [if_neg (by simp [improves]), if_neg (by simp [improves])]

theorem keyStep_zeros_first :
    keyStep (List.replicate 12 0) ("C", none) 0
      = (KEY_NAMES.getD 0 "" ++ " Major", some 0) := by
  simp only [keyStep, rotatedAt_replicate_zero, pearson_correlation_zero_left]
  rw [if_pos (show improves none 0 from trivial), if_neg (by simp [improves])]

theorem keySearch_fold_zeros (k : String) :
    ∀ l : List Nat, l.foldl (keyStep (List.replicate 12 0)) (k, some 0) = (k, some 0) := by
  intro l
  induction l with
  | nil => rfl
  | cons r rs ih =>
      rw [List.foldl_cons, keyStep_zeros k r]
      exact ih

theorem keySearch_zeros :
    keySearch (List.replicate 12 0) = (KEY_NAMES.getD 0 "" ++ " Major", some 0) := by
  rw [keySearch,
    show List.range 12 = 0 :: [1, 2, 3, 4, 5, 6, 7, 8, 9, 10, 11] from by decide,
    List.foldl_cons, keyStep_zeros_first]
  exact keySearch_fold_zeros _ _

/-- `detect_key` on an empty sample list with nominal rate 0: no frames are
accumulated, the chromagram is all zero, every correlation is 0, so the
first candidate "C Major" wins with confidence 50. -/
theorem detect_key_nil_eval : detect_key [] 0 = .ok ("C Major", 50) := by
  rw [detect_key, if_neg (by simp)]
  have hch : compute_chromagram [] 0 = List.replicate 12 0 := by
    simp only [compute_chromagram, List.length_nil, chromaLoop]
    rw [if_neg (by norm_num)]
  have hsum : (List.replicate 12 (0 : ℝ)).sum = 0 := by
    rw [List.sum_replicate, smul_zero]
  simp only [detectKeyCore, hch, hsum]
  rw [if_neg (by norm_num), keySearch_zeros]
  rw [show (KEY_NAMES.getD 0 "" ++ " Major" : String) = "C Major" from by decide]
  have hconf : keyConfidence (some 0) = 50 := by
    simp only [keyConfidence]
    norm_num
  rw [hconf]

/-- Witness for C6: the BPM branch at 200 zero samples (confidence 0) and
the key branch at no samples (confidence 50). -/
theorem confidences_in_range_witness :
    ((0 : ℚ) ≤ 0 ∧ (0 : ℚ) ≤ 100) ∧ ((0 : ℝ) ≤ 50 ∧ (50 : ℝ) ≤ 100) :=
  ⟨confidences_in_range.1 (List.replicate 200 0) 100 120 0 detect_bpm_zeros_eval,
   confidences_in_range.2 [] 0 "C Major" 50 detect_key_nil_eval⟩

/-! ### Claim C4: the rotated major profile wins the 24-candidate search -/

/-- The major profile rotated by `k`: `(rotMajor k)[i] = MAJOR_PROFILE[(i + k) mod 12]`.
For `k = 12 - r` (with `r < 12`) this is exactly the chromagram of claim C4,
`chroma[c] = MAJOR_PROFILE[(c - r) mod 12]`. -/
noncomputable def rotMajor (k : Nat) : List ℝ :=
  (List.range 12).map (fun i => MAJOR_PROFILE.getD ((i + k) % 12) 0)

theorem getD_map_range12 (f : Nat → ℝ) (j : Nat) (hj : j < 12) :
    ((List.range 12).map f).getD j 0 = f j := by
  rw [List.getD_eq_getElem?_getD, List.getElem?_map, List.getElem?_range hj]
  rfl

/-- Rotating an already-rotated major profile composes the shifts mod 12. -/
theorem rotatedAt_rotMajor (k t : Nat) :
    rotatedAt (rotMajor k) t = rotMajor ((k + t) % 12) := by
  simp only [rotatedAt, rotMajor]
  apply List.map_congr_left
  intro i hi
  rw [List.mem_range] at hi
  rw [getD_map_range12 _ _ (Nat.mod_lt _ (by norm_num))]
  congr 1
  omega

theorem zip_self_map_mul (x : List ℝ) :
    (x.zip x).map (fun q => q.1 * q.2) = x.map (fun a => a * a) := by
  induction x with
  | nil => rfl
  | cons a l ih => simp only [List.zip_cons_cons, List.map_cons, ih]

/-- Pearson correlation of a list with itself is 1 when its variance term
is positive. -/
theorem pearson_correlation_self_one (x : List ℝ)
    (hD : 0 < (x.length : ℝ) * (x.map (fun a => a * a)).sum - x.sum * x.sum) :
    pearson_correlation x x = 1 := by
  simp only [pearson_correlation, zip_self_map_mul]
  rw [Real.sqrt_mul_self (le_of_lt hD), if_neg (ne_of_gt hD)]
  exact div_self (ne_of_gt hD)

/-- Strict-Cauchy-Schwarz criterion: a correlation is strictly below 1 when
the squared covariance term is strictly below the product of variance terms. -/
theorem pearson_correlation_lt_one (x y : List ℝ)
    (h : ((x.length : ℝ) * ((x.zip y).map (fun q => q.1 * q.2)).sum - x.sum * y.sum) ^ 2
        < ((x.length : ℝ) * (x.map (fun a => a * a)).sum - x.sum * x.sum)
          * ((x.length : ℝ) * (y.map (fun a => a * a)).sum - y.sum * y.sum)) :
    pearson_correlation x y < 1 := by
  simp only [pearson_correlation]
  have hD2 : 0 < ((x.length : ℝ) * (x.map (fun a => a * a)).sum - x.sum * x.sum)
      * ((x.length : ℝ) * (y.map (fun a => a * a)).sum - y.sum * y.sum) :=
    lt_of_le_of_lt (sq_nonneg _) h
  rw [if_neg (ne_of_gt (Real.sqrt_pos.2 hD2))]
  rw [div_lt_one (Real.sqrt_pos.2 hD2)]
  calc (x.length : ℝ) * ((x.zip y).map (fun q => q.1 * q.2)).sum - x.sum * y.sum
      ≤ |(x.length : ℝ) * ((x.zip y).map (fun q => q.1 * q.2)).sum - x.sum * y.sum| :=
        le_abs_self _
    _ = Real.sqrt (((x.length : ℝ) * ((x.zip y).map (fun q => q.1 * q.2)).sum
          - x.sum * y.sum) ^ 2) := (Real.sqrt_sq_eq_abs _).symm
    _ < Real.sqrt _ := Real.sqrt_lt_sqrt (sq_nonneg _) h

/-- The unrotated major profile correlates perfectly with itself. -/
theorem rotMajor_zero_corr_major : pearson_correlation (rotMajor 0) MAJOR_PROFILE = 1 := by
  rw [show rotMajor 0 = MAJOR_PROFILE from rfl]
  apply pearson_correlation_self_one
  norm_num [MAJOR_PROFILE, List.sum_cons]

set_option maxHeartbeats 1600000 in
/-- Every nontrivial rotation of the major profile correlates strictly
below 1 with the major profile (exact rational arithmetic, 11 cases). -/
theorem rotMajor_corr_major_lt_one (k : Nat) (hk : k < 12) (hk0 : k ≠ 0) :
    pearson_correlation (rotMajor k) MAJOR_PROFILE < 1 := by
  interval_cases k
  · exact absurd rfl hk0
  · rw [show rotMajor 1 = [(2.23 : ℝ), 3.48, 2.33, 4.38, 4.09, 2.52, 5.19, 2.39, 3.66, 2.29, 2.88, 6.35] from rfl]
    apply pearson_correlation_lt_one
    norm_num [MAJOR_PROFILE, List.zip_cons_cons, List.sum_cons]
  · rw [show rotMajor 2 = [(3.48 : ℝ), 2.33, 4.38, 4.09, 2.52, 5.19, 2.39, 3.66, 2.29, 2.88, 6.35, 2.23] from rfl]
    apply pearson_correlation_lt_one
    norm_num [MAJOR_PROFILE, List.zip_cons_cons, List.sum_cons]
  · rw [show rotMajor 3 = [(2.33 : ℝ), 4.38, 4.09, 2.52, 5.19, 2.39, 3.66, 2.29, 2.88, 6.35, 2.23, 3.48] from rfl]
    apply pearson_correlation_lt_one
    norm_num [MAJOR_PROFILE, List.zip_cons_cons, List.sum_cons]
  · rw [show rotMajor 4 = [(4.38 : ℝ), 4.09, 2.52, 5.19, 2.39, 3.66, 2.29, 2.88, 6.35, 2.23, 3.48, 2.33] from rfl]
    apply pearson_correlation_lt_one
    norm_num [MAJOR_PROFILE, List.zip_cons_cons, List.sum_cons]
  · rw [show rotMajor 5 = [(4.09 : ℝ), 2.52, 5.19, 2.39, 3.66, 2.29, 2.88, 6.35, 2.23, 3.48, 2.33, 4.38] from rfl]
    apply pearson_correlation_lt_one
    norm_num [MAJOR_PROFILE, List.zip_cons_cons, List.sum_cons]
  · rw [show rotMajor 6 = [(2.52 : ℝ), 5.19, 2.39, 3.66, 2.29, 2.88, 6.35, 2.23, 3.48, 2.33, 4.38, 4.09] from rfl]
    apply pearson_correlation_lt_one
    norm_num [MAJOR_PROFILE, List.zip_cons_cons, List.sum_cons]
  · rw [show rotMajor 7 = [(5.19 : ℝ), 2.39, 3.66, 2.29, 2.88, 6.35, 2.23, 3.48, 2.33, 4.38, 4.09, 2.52] from rfl]
    apply pearson_correlation_lt_one
    norm_num [MAJOR_PROFILE, List.zip_cons_cons, List.sum_cons]
  · rw [show rotMajor 8 = [(2.39 : ℝ), 3.66, 2.29, 2.88, 6.35, 2.23, 3.48, 2.33, 4.38, 4.09, 2.52, 5.19] from rfl]
    apply pearson_correlation_lt_one
    norm_num [MAJOR_PROFILE, List.zip_cons_cons, List.sum_cons]
  · rw [show rotMajor 9 = [(3.66 : ℝ), 2.29, 2.88, 6.35, 2.23, 3.48, 2.33, 4.38, 4.09, 2.52, 5.19, 2.39] from rfl]
    apply pearson_correlation_lt_one
    norm_num [MAJOR_PROFILE, List.zip_cons_cons, List.sum_cons]
  · rw [show rotMajor 10 = [(2.29 : ℝ), 2.88, 6.35, 2.23, 3.48, 2.33, 4.38, 4.09, 2.52, 5.19, 2.39, 3.66] from rfl]
    apply pearson_correlation_lt_one
    norm_num [MAJOR_PROFILE, List.zip_cons_cons, List.sum_cons]
  · rw [show rotMajor 11 = [(2.88 : ℝ), 6.35, 2.23, 3.48, 2.33, 4.38, 4.09, 2.52, 5.19, 2.39, 3.66, 2.29] from rfl]
    apply pearson_correlation_lt_one
    norm_num [MAJOR_PROFILE, List.zip_cons_cons, List.sum_cons]

set_option maxHeartbeats 1600000 in
/-- Every rotation of the major profile correlates strictly below 1 with
the minor profile (exact rational arithmetic, 12 cases). -/
theorem rotMajor_corr_minor_lt_one (k : Nat) (hk : k < 12) :
    pearson_correlation (rotMajor k) MINOR_PROFILE < 1 := by
  interval_cases k
  · rw [show rotMajor 0 = [(6.35 : ℝ), 2.23, 3.48, 2.33, 4.38, 4.09, 2.52, 5.19, 2.39, 3.66, 2.29, 2.88] from rfl]
    apply pearson_correlation_lt_one
    norm_num [MAJOR_PROFILE, MINOR_PROFILE, List.zip_cons_cons, List.sum_cons]
  · rw [show rotMajor 1 = [(2.23 : ℝ), 3.48, 2.33, 4.38, 4.09, 2.52, 5.19, 2.39, 3.66, 2.29, 2.88, 6.35] from rfl]
    apply pearson_correlation_lt_one
    norm_num [MAJOR_PROFILE, MINOR_PROFILE, List.zip_cons_cons, List.sum_cons]
  · rw [show rotMajor 2 = [(3.48 : ℝ), 2.33, 4.38, 4.09, 2.52, 5.19, 2.39, 3.66, 2.29, 2.88, 6.35, 2.23] from rfl]
    apply pearson_correlation_lt_one
    norm_num [MAJOR_PROFILE, MINOR_PROFILE, List.zip_cons_cons, List.sum_cons]
  · rw [show rotMajor 3 = [(2.33 : ℝ), 4.38, 4.09, 2.52, 5.19, 2.39, 3.66, 2.29, 2.88, 6.35, 2.23, 3.48] from rfl]
    apply pearson_correlation_lt_one
    norm_num [MAJOR_PROFILE, MINOR_PROFILE, List.zip_cons_cons, List.sum_cons]
  · rw [show rotMajor 4 = [(4.38 : ℝ), 4.09, 2.52, 5.19, 2.39, 3.66, 2.29, 2.88, 6.35, 2.23, 3.48, 2.33] from rfl]
    apply pearson_correlation_lt_one
    norm_num [MAJOR_PROFILE, MINOR_PROFILE, List.zip_cons_cons, List.sum_cons]
  · rw [show rotMajor 5 = [(4.09 : ℝ), 2.52, 5.19, 2.39, 3.66, 2.29, 2.88, 6.35, 2.23, 3.48, 2.33, 4.38] from rfl]
    apply pearson_correlation_lt_one
    norm_num [MAJOR_PROFILE, MINOR_PROFILE, List.zip_cons_cons, List.sum_cons]
  · rw [show rotMajor 6 = [(2.52 : ℝ), 5.19, 2.39, 3.66, 2.29, 2.88, 6.35, 2.23, 3.48, 2.33, 4.38, 4.09] from rfl]
    apply pearson_correlation_lt_one
    norm_num [MAJOR_PROFILE, MINOR_PROFILE, List.zip_cons_cons, List.sum_cons]
  · rw [show rotMajor 7 = [(5.19 : ℝ), 2.39, 3.66, 2.29, 2.88, 6.35, 2.23, 3.48, 2.33, 4.38, 4.09, 2.52] from rfl]
    apply pearson_correlation_lt_one
    norm_num [MAJOR_PROFILE, MINOR_PROFILE, List.zip_cons_cons, List.sum_cons]
  · rw [show rotMajor 8 = [(2.39 : ℝ), 3.66, 2.29, 2.88, 6.35, 2.23, 3.48, 2.33, 4.38, 4.09, 2.52, 5.19] from rfl]
    apply pearson_correlation_lt_one
    norm_num [MAJOR_PROFILE, MINOR_PROFILE, List.zip_cons_cons, List.sum_cons]
  · rw [show rotMajor 9 = [(3.66 : ℝ), 2.29, 2.88, 6.35, 2.23, 3.48, 2.33, 4.38, 4.09, 2.52, 5.19, 2.39] from rfl]
    apply pearson_correlation_lt_one
    norm_num [MAJOR_PROFILE, MINOR_PROFILE, List.zip_cons_cons, List.sum_cons]
  · rw [show rotMajor 10 = [(2.29 : ℝ), 2.88, 6.35, 2.23, 3.48, 2.33, 4.38, 4.09, 2.52, 5.19, 2.39, 3.66] from rfl]
    apply pearson_correlation_lt_one
    norm_num [MAJOR_PROFILE, MINOR_PROFILE, List.zip_cons_cons, List.sum_cons]
  · rw [show rotMajor 11 = [(2.88 : ℝ), 6.35, 2.23, 3.48, 2.33, 4.38, 4.09, 2.52, 5.19, 2.39, 3.66, 2.29] from rfl]
    apply pearson_correlation_lt_one
    norm_num [MAJOR_PROFILE, MINOR_PROFILE, List.zip_cons_cons, List.sum_cons]

set_option maxHeartbeats 1000000 in
/-- A step whose two candidate correlations are both strictly below 1
keeps the state's best correlation strictly below 1 (or still unset). -/
theorem keyStep_keeps_lt_one (normalized : List ℝ) (st : String × Option ℝ) (root : Nat)
    (hM : pearson_correlation (rotatedAt normalized root) MAJOR_PROFILE < 1)
    (hN : pearson_correlation (rotatedAt normalized root) MINOR_PROFILE < 1)
    (hst : st.2 = none ∨ ∃ v, st.2 = some v ∧ v < 1) :
    (keyStep normalized st root).2 = none ∨
      ∃ v, (keyStep normalized st root).2 = some v ∧ v < 1 := by
  simp only [keyStep]
  split
  · split
    · exact Or.inr ⟨_, rfl, hN⟩
    · exact Or.inr ⟨_, rfl, hM⟩
  · split
    · exact Or.inr ⟨_, rfl, hN⟩
    · exact hst

/-- A step whose major candidate correlates exactly 1 (and minor strictly
below 1) takes over a best correlation that is unset or below 1. -/
theorem keyStep_updates (normalized : List ℝ) (st : String × Option ℝ) (root : Nat)
    (hM : pearson_correlation (rotatedAt normalized root) MAJOR_PROFILE = 1)
    (hN : pearson_correlation (rotatedAt normalized root) MINOR_PROFILE < 1)
    (hst : st.2 = none ∨ ∃ v, st.2 = some v ∧ v < 1) :
    keyStep normalized st root = (KEY_NAMES.getD root "" ++ " Major", some 1) := by
  have himp : improves st.2 (pearson_correlation (rotatedAt normalized root) MAJOR_PROFILE) := by
    rcases hst with h | ⟨v, hv, hlt⟩
    · rw [h]; trivial
    · rw [hv]
      show v < _
      rw [hM]
      exact hlt
  simp only [keyStep]
  rw [if_pos himp, hM]
  rw [if_neg (show ¬ improves ((KEY_NAMES.getD root "" ++ " Major",
      some (1 : ℝ)) : String × Option ℝ).2
      (pearson_correlation (rotatedAt normalized root) MINOR_PROFILE)
    from not_lt.2 (le_of_lt hN))]

/-- Once the best correlation is exactly 1, steps whose candidates are both
strictly below 1 leave the state unchanged. -/
theorem keyStep_stays_at_one (normalized : List ℝ) (k : String) (root : Nat)
    (hM : pearson_correlation (rotatedAt normalized root) MAJOR_PROFILE < 1)
    (hN : pearson_correlation (rotatedAt normalized root) MINOR_PROFILE < 1) :
    keyStep normalized (k, some 1) root = (k, some 1) := by
  simp only [keyStep]
  rw [if_neg (show ¬ improves ((k, some (1 : ℝ)) : String × Option ℝ).2
      (pearson_correlation (rotatedAt normalized root) MAJOR_PROFILE)
    from not_lt.2 (le_of_lt hM))]
  rw [if_neg (show ¬ improves ((k, some (1 : ℝ)) : String × Option ℝ).2
      (pearson_correlation (rotatedAt normalized root) MINOR_PROFILE)
    from not_lt.2 (le_of_lt hN))]

theorem keyFold_lt_one (normalized : List ℝ) :
    ∀ (l : List Nat) (st : String × Option ℝ),
      (∀ t ∈ l, pearson_correlation (rotatedAt normalized t) MAJOR_PROFILE < 1 ∧
        pearson_correlation (rotatedAt normalized t) MINOR_PROFILE < 1) →
      (st.2 = none ∨ ∃ v, st.2 = some v ∧ v < 1) →
      ((l.foldl (keyStep normalized) st).2 = none ∨
        ∃ v, (l.foldl (keyStep normalized) st).2 = some v ∧ v < 1) := by
  intro l
  induction l with
  | nil => intro st _ hst; exact hst
  | cons t ts ih =>
      intro st hall hst
      rw [List.foldl_cons]
      exact ih _ (fun u hu => hall u (List.mem_cons_of_mem _ hu))
        (keyStep_keeps_lt_one _ _ _ (hall t (List.mem_cons_self _ _)).1
          (hall t (List.mem_cons_self _ _)).2 hst)

theorem keyFold_stays_at_one (normalized : List ℝ) (k : String) :
    ∀ l : List Nat,
      (∀ t ∈ l, pearson_correlation (rotatedAt normalized t) MAJOR_PROFILE < 1 ∧
        pearson_correlation (rotatedAt normalized t) MINOR_PROFILE < 1) →
      l.foldl (keyStep normalized) (k, some 1) = (k, some 1) := by
  intro l
  induction l with
  | nil => intro _; rfl
  | cons t ts ih =>
      intro hall
      rw [List.foldl_cons, keyStep_stays_at_one _ _ _
        (hall t (List.mem_cons_self _ _)).1 (hall t (List.mem_cons_self _ _)).2]
      exact ih (fun u hu => hall u (List.mem_cons_of_mem _ hu))

/-- **C4**: for every root `r < 12`, if the normalized chromagram entering
the 24-candidate search equals the major reference profile rotated to root
`r` (`chroma[c] = MAJOR_PROFILE[(c - r) mod 12]`, i.e. `rotMajor (12 - r)`),
then the search of `detect_key` selects the major candidate at root `r`,
producing the label `KEY_NAMES[r] ++ " Major"`. -/
theorem detect_key_search_rotated_major (r : Nat) (hr : r < 12) :
    (keySearch (rotMajor (12 - r))).1 = KEY_NAMES.getD r "" ++ " Major" := by
  have happ := List.range'_append 0 r (12 - r) 1
  rw [one_mul, Nat.zero_add] at happ
  have h12 : (12 - r) + r = 12 := by omega
  rw [h12] at happ
  have hsucc : List.range' r (12 - r) = r :: List.range' (r + 1) (11 - r) := by
    rw [show 12 - r = (11 - r) + 1 from by omega, List.range'_succ]
  rw [keySearch, List.range_eq_range', ← happ, List.foldl_append, hsucc, List.foldl_cons]
  have hprefix : (((List.range' 0 r).foldl (keyStep (rotMajor (12 - r))) ("C", none)).2 = none ∨
      ∃ v, ((List.range' 0 r).foldl (keyStep (rotMajor (12 - r))) ("C", none)).2 = some v ∧
        v < 1) := by
    apply keyFold_lt_one _ _ _ _ (Or.inl rfl)
    intro t ht
    rw [List.mem_range'_1] at ht
    rw [rotatedAt_rotMajor, show (12 - r + t) % 12 = 12 - r + t from by omega]
    exact ⟨rotMajor_corr_major_lt_one _ (by omega) (by omega),
      rotMajor_corr_minor_lt_one _ (by omega)⟩
  have hstep := keyStep_updates (rotMajor (12 - r))
    ((List.range' 0 r).foldl (keyStep (rotMajor (12 - r))) ("C", none)) r
    (by rw [rotatedAt_rotMajor, show (12 - r + r) % 12 = 0 from by omega]
        exact rotMajor_zero_corr_major)
    (by rw [rotatedAt_rotMajor, show (12 - r + r) % 12 = 0 from by omega]
        exact rotMajor_corr_minor_lt_one 0 (by norm_num))
    hprefix
  rw [hstep]
  rw [keyFold_stays_at_one _ _ _ ?_]
  intro t ht
  rw [List.mem_range'_1] at ht
  rw [rotatedAt_rotMajor, show (12 - r + t) % 12 = t - r from by omega]
  exact ⟨rotMajor_corr_major_lt_one _ (by omega) (by omega),
    rotMajor_corr_minor_lt_one _ (by omega)⟩

/-- Witness for C4 at root 0: the unrotated major-profile chromagram yields
the label "C Major". -/
theorem detect_key_search_rotated_major_witness :
    (keySearch (rotMajor (12 - 0))).1 = "C Major" := by
  rw [detect_key_search_rotated_major 0 (by norm_num)]
  decide


/-! ### Loading and `analyze_audio` (audio_analysis.rs lines 23-119) -/

/-- One packet's channel-averaging (audio_analysis.rs lines 111-114):
`interleaved.chunks(channels)` with each chunk averaged as
`chunk.iter().sum() / channels as f32`.  The fuel argument bounds the
recursion; `fuel = l.length` suffices for `channels >= 1`.  Rust's
`chunks(0)` panics, so the model is faithful only for `channels >= 1`. -/
def monoMixF (channels : Nat) : Nat → List ℚ → List ℚ
  | _, [] => []
  | 0, _ :: _ => []
  | fuel + 1, x :: rest =>
      ((x :: rest).take channels).sum / (channels : ℚ)
        :: monoMixF channels fuel ((x :: rest).drop channels)

/-- Mono conversion of one decoded packet (audio_analysis.rs lines 111-114). -/
def monoMix (channels : Nat) (l : List ℚ) : List ℚ :=
  monoMixF channels l.length l

/-- The packet loop of `load_audio_samples` (audio_analysis.rs lines
81-116): before reading each packet the accumulated length is checked
against `max_samples`; a packet is mono-mixed and appended whole (the cap
can be overshot by up to one packet). -/
def loadLoop (channels max_samples : Nat) : List ℚ → List (List ℚ) → List ℚ
  | acc, [] => acc
  | acc, p :: ps =>
      if max_samples ≤ acc.length then acc
      else loadLoop channels max_samples (acc ++ monoMix channels p) ps

/-- `load_audio_samples` (audio_analysis.rs lines 46-119) on an
already-decoded packet stream: mono-mix each packet, capping at
`sample_rate * 60` samples (60 seconds at the decoded rate). -/
def load_audio_samples (sample_rate channels : Nat) (packets : List (List ℚ)) : List ℚ :=
  loadLoop channels (sample_rate * 60) [] packets

/-- The analysis record (audio_analysis.rs lines 13-20); on the `Ok` path
every field of the Rust struct is `Some`, so the payloads are inlined. -/
structure AudioAnalysis where
  bpm : ℚ
  bpmConfidence : ℚ
  key : String
  keyConfidence : ℝ

/-- The body of `analyze_audio` after loading (audio_analysis.rs lines
27-42): empty-check, then `detect_bpm(&samples, 44100)?` and
`detect_key(&samples, 44100)?` with the hardcoded rate 44100. -/
noncomputable def analyzeSamples (samples : List ℚ) : Except String AudioAnalysis :=
  if samples.isEmpty then .error "No audio samples loaded"
  else
    match detect_bpm samples 44100 with
    | .error e => .error e
    | .ok bc =>
        match detect_key samples 44100 with
        | .error e => .error e
        | .ok kc => .ok ⟨bc.1, bc.2, kc.1, kc.2⟩

/-- `analyze_audio` (audio_analysis.rs lines 23-43): load (the decoded
sample rate enters only through the 60-second cap), then analyze at the
fixed rate 44100. -/
noncomputable def analyze_audio (sample_rate channels : Nat)
    (packets : List (List ℚ)) : Except String AudioAnalysis :=
  analyzeSamples (load_audio_samples sample_rate channels packets)

/-- When the total mono-mixed length stays within the cap, the load loop
returns the concatenation of all mono-mixed packets. -/
theorem loadLoop_no_cap (ch max : Nat) :
    ∀ (ps : List (List ℚ)) (acc : List ℚ),
      acc.length + ((ps.map (monoMix ch)).flatten).length ≤ max →
      loadLoop ch max acc ps = acc ++ (ps.map (monoMix ch)).flatten := by
  intro ps
  induction ps with
  | nil => intro acc _; exact (List.append_nil acc).symm
  | cons p ps ih =>
      intro acc h
      rw [List.map_cons, List.flatten_cons] at h ⊢
      show (if max ≤ acc.length then acc
        else loadLoop ch max (acc ++ monoMix ch p) ps) = _
      by_cases hcap : max ≤ acc.length
      · rw [if_pos hcap]
        have hlen : (monoMix ch p ++ (ps.map (monoMix ch)).flatten).length = 0 := by
          rw [List.length_append] at h ⊢
          omega
        rw [List.length_eq_zero] at hlen
        rw [hlen, List.append_nil]
      · rw [if_neg hcap, ih]
        · rw [List.append_assoc]
        · simp only [List.length_append] at h ⊢
          omega

/-- Mono-mixing a single-channel run of zeros is the identity. -/
theorem monoMixF_one_replicate_zero (n : Nat) :
    monoMixF 1 n (List.replicate n (0 : ℚ)) = List.replicate n 0 := by
  induction n with
  | zero => rfl
  | succ n ih =>
      rw [List.replicate_succ]
      simp [monoMixF, ih]

/-- An `analyzeSamples` run on nonempty audio shorter than 88200 samples
returns the BPM too-short error (the guard of `detect_bpm` at the
hardcoded rate 44100). -/
theorem analyzeSamples_too_short (samples : List ℚ)
    (hne : samples.isEmpty = false) (hlen : samples.length < 88200) :
    analyzeSamples samples = .error "Audio too short for BPM detection" := by
  rw [analyzeSamples, if_neg (by simp [hne])]
  rw [detect_bpm, if_pos (show samples.length < 44100 * 2 from by omega)]

/-- An `analyzeSamples` run on audio of at least 88200 samples never
returns the BPM too-short error. -/
theorem analyzeSamples_not_too_short (samples : List ℚ)
    (hlen : 88200 ≤ samples.length) :
    analyzeSamples samples ≠ .error "Audio too short for BPM detection" := by
  have hne : ¬ samples.isEmpty = true := by
    rw [List.isEmpty_iff]
    intro hnil
    rw [hnil, List.length_nil] at hlen
    omega
  rw [analyzeSamples, if_neg hne]
  rw [detect_bpm, if_neg (show ¬ samples.length < 44100 * 2 from by omega)]
  simp only [detectBpmCore]
  by_cases h10 : (energyFrames samples 44100).length < 10
  · rw [if_pos h10]
    intro hcon
    have hstr : ("Not enough data for BPM detection" : String)
        = "Audio too short for BPM detection" := Except.error.inj hcon
    exact absurd hstr (by decide)
  · rw [if_neg h10]
    rw [detect_key, if_neg (show ¬ samples.length < 44100 from by omega)]
    intro hcon
    exact Except.noConfusion hcon

/-- **C5** counterexample: 88200 zero samples decoded at 96000 Hz are
0.91875 seconds of audio — strictly shorter than 2 seconds at the decoded
rate — yet `analyze_audio` does not return the "too short" error, because
`detect_bpm` is called with the hardcoded rate 44100 and 88200 samples
pass its `len < 44100 * 2` guard. -/
theorem analyze_audio_short_not_too_short_cex :
    (88200 : ℚ) / 96000 < 2 ∧
    analyze_audio 96000 1 [List.replicate 88200 (0 : ℚ)]
      ≠ .error "Audio too short for BPM detection" := by
  constructor
  · norm_num
  · have hmono : monoMix 1 (List.replicate 88200 (0 : ℚ)) = List.replicate 88200 0 := by
      rw [monoMix, List.length_replicate]
      exact monoMixF_one_replicate_zero 88200
    have hflat : (([List.replicate 88200 (0 : ℚ)].map (monoMix 1)).flatten)
        = List.replicate 88200 0 := by
      rw [List.map_cons, List.map_nil, List.flatten_cons, List.flatten_nil,
        List.append_nil, hmono]
    have hcond : ([] : List ℚ).length
        + (([List.replicate 88200 (0 : ℚ)].map (monoMix 1)).flatten).length ≤ 96000 * 60 := by
      rw [hflat, List.length_replicate, List.length_nil]
      norm_num
    have hsamp : load_audio_samples 96000 1 [List.replicate 88200 (0 : ℚ)]
        = List.replicate 88200 0 := by
      rw [load_audio_samples,
        loadLoop_no_cap 1 (96000 * 60) [List.replicate 88200 (0 : ℚ)] [] hcond,
        hflat, List.nil_append]
    rw [analyze_audio, hsamp]
    exact analyzeSamples_not_too_short _ (by rw [List.length_replicate])

/-- **C5** (amended): the "too short" guard of `analyze_audio` is taken
exactly below 88200 mono samples — 2 seconds at the *hardcoded* rate
44100, not at the decoded rate: on nonempty loaded audio shorter than
88200 samples `analyze_audio` fails with the explicit BPM too-short error
(never a silent all-zero result), and with at least 88200 samples that
error branch is not taken. -/
theorem analyze_audio_too_short_at_44100 (sr ch : Nat) (packets : List (List ℚ)) :
    ((load_audio_samples sr ch packets).isEmpty = false →
      (load_audio_samples sr ch packets).length < 88200 →
      analyze_audio sr ch packets = .error "Audio too short for BPM detection") ∧
    (88200 ≤ (load_audio_samples sr ch packets).length →
      analyze_audio sr ch packets ≠ .error "Audio too short for BPM detection") := by
  constructor
  · intro hne hlen
    rw [analyze_audio]
    exact analyzeSamples_too_short _ hne hlen
  · intro hlen
    rw [analyze_audio]
    exact analyzeSamples_not_too_short _ hlen

/-- Witness for the amended C5 at a one-sample file: the load is nonempty
and short, and `analyze_audio` returns the explicit too-short error. -/
theorem analyze_audio_too_short_at_44100_witness :
    (load_audio_samples 44100 1 [[0]]).isEmpty = false ∧
    (load_audio_samples 44100 1 [[0]]).length < 88200 ∧
    analyze_audio 44100 1 [[0]] = .error "Audio too short for BPM detection" :=
  ⟨by decide, by decide,
    (analyze_audio_too_short_at_44100 44100 1 [[0]]).1 (by decide) (by decide)⟩

/-- **C9**: the decoded sample rate enters `analyze_audio` only through
the 60-second loading cap.  Whenever the mono stream fits under the caps
of two rates, the analysis result is literally `analyzeSamples` of the
mono stream — whose detectors run at the fixed rate 44100 — and is
therefore identical for both decoded rates. -/
theorem analyze_audio_rate_only_caps (r1 r2 ch : Nat) (packets : List (List ℚ))
    (_hch : 0 < ch)
    (h1 : ((packets.map (monoMix ch)).flatten).length ≤ r1 * 60)
    (h2 : ((packets.map (monoMix ch)).flatten).length ≤ r2 * 60) :
    analyze_audio r1 ch packets = analyzeSamples ((packets.map (monoMix ch)).flatten) ∧
    analyze_audio r1 ch packets = analyze_audio r2 ch packets := by
  have e1 : load_audio_samples r1 ch packets = (packets.map (monoMix ch)).flatten := by
    rw [load_audio_samples, loadLoop_no_cap ch (r1 * 60) packets [] (by simpa using h1)]
    exact List.nil_append _
  have e2 : load_audio_samples r2 ch packets = (packets.map (monoMix ch)).flatten := by
    rw [load_audio_samples, loadLoop_no_cap ch (r2 * 60) packets [] (by simpa using h2)]
    exact List.nil_append _
  constructor
  · rw [analyze_audio, e1]
  · rw [analyze_audio, analyze_audio, e1, e2]

/-- Witness for C9 at decoded rates 1 Hz and 2 Hz over the same two
mono packets: the analysis results coincide. -/
theorem analyze_audio_rate_only_caps_witness :
    analyze_audio 1 1 [[1], [2]] = analyze_audio 2 1 [[1], [2]] :=
  (analyze_audio_rate_only_caps 1 2 1 [[1], [2]]
    (by decide) (by decide) (by decide)).2

end Rippr
